import Mathlib

/-!
Shallow embedding of the `regex-machine` crate: the parser
(`engine/parser.rs`), the code generator (`engine/codegen.rs`) and the two
evaluators (`engine/evaluator.rs`), together with the composing entry point
`do_matching` (`engine.rs`).

Machine integers (`usize`) are modelled as `Nat` with an explicit
`checked_add` bound; the evaluator loops, which can run forever in the
source, are modelled with an explicit fuel parameter: `none` means the
computation did not finish within the given fuel, `some r` means the source
loop returns `r`.
-/

namespace RegexMachine

/-- Largest value of the 64-bit `usize` type. -/
def usizeMax : Nat := 2 ^ 64 - 1

/-- `helper.rs` `safe_add`: `usize::checked_add`, written out for `Nat`.
Returns `none` exactly when the addition would overflow `usize`. -/
def safe_add (a b : Nat) : Option Nat :=
  if a + b ≤ usizeMax then some (a + b) else none

/-- `parser.rs` `Ast`: the abstract syntax tree of a pattern. -/
inductive Ast where
  | Char : Char → Ast
  | Plus : Ast → Ast
  | Star : Ast → Ast
  | Question : Ast → Ast
  | Or : Ast → Ast → Ast
  | Seq : List Ast → Ast
  | Any : Ast

/-- `parser.rs` `ParseError`. -/
inductive ParseError where
  | InvalidEscape : Nat → Char → ParseError
  | InvalidRightParen : Nat → ParseError
  | NoPrev : Nat → ParseError
  | NoRightParen : ParseError
  | Empty : ParseError

/-- `parser.rs` `parse_escape`. -/
def parse_escape (pos : Nat) (c : Char) : Except ParseError Ast :=
  match c with
  | '\\' | '(' | ')' | '|' | '+' | '*' | '?' | '.' => .ok (Ast.Char c)
  | _ => .error (ParseError.InvalidEscape pos c)

/-- `parser.rs` `Psq`. -/
inductive Psq where
  | Plus
  | Star
  | Question

/-- `parser.rs` `parse_plus_star_question`: pop the last completed sub-AST
from `seq` and wrap it; `NoPrev` when `seq` is empty. -/
def parse_plus_star_question (seq : List Ast) (ast_type : Psq) (pos : Nat) :
    Except ParseError (List Ast) :=
  match seq.getLast? with
  | some prev =>
    let ast := match ast_type with
      | Psq.Plus => Ast.Plus prev
      | Psq.Star => Ast.Star prev
      | Psq.Question => Ast.Question prev
    .ok (seq.dropLast ++ [ast])
  | none => .error (ParseError.NoPrev pos)

/-- `parser.rs` `fold_or`: pop the last alternative, reverse the rest and
fold them in with `Or`. -/
def fold_or (seq_or : List Ast) : Option Ast :=
  if 1 < seq_or.length then
    match seq_or.getLast? with
    | some ast => some (seq_or.dropLast.reverse.foldl (fun acc s => Ast.Or s acc) ast)
    | none => none
  else
    seq_or.getLast?

/-- `parser.rs` `ParseState`. -/
inductive ParseState where
  | Char
  | Escape

/-- The character-by-character loop of `parser.rs` `parse`, with the loop
state (current index, `seq`, `seq_or`, the parenthesis save-stack and the
escape mode) passed explicitly.  The save-stack is a cons-stack whose head
is the most recently pushed `(seq, seq_or)` pair. -/
def parseGo : List Char → Nat → List Ast → List Ast →
    List (List Ast × List Ast) → ParseState → Except ParseError Ast
  | [], _, seq, seq_or, stack, _ =>
    if stack.isEmpty then
      let seq_or' := if seq.isEmpty then seq_or else seq_or ++ [Ast.Seq seq]
      match fold_or seq_or' with
      | some ast => .ok ast
      | none => .error ParseError.Empty
    else
      .error ParseError.NoRightParen
  | c :: rest, idx, seq, seq_or, stack, ParseState.Escape =>
    match parse_escape idx c with
    | .ok ast => parseGo rest (idx + 1) (seq ++ [ast]) seq_or stack ParseState.Char
    | .error e => .error e
  | c :: rest, idx, seq, seq_or, stack, ParseState.Char =>
    match c with
    | '+' =>
      match parse_plus_star_question seq Psq.Plus idx with
      | .ok seq' => parseGo rest (idx + 1) seq' seq_or stack ParseState.Char
      | .error e => .error e
    | '*' =>
      match parse_plus_star_question seq Psq.Star idx with
      | .ok seq' => parseGo rest (idx + 1) seq' seq_or stack ParseState.Char
      | .error e => .error e
    | '?' =>
      match parse_plus_star_question seq Psq.Question idx with
      | .ok seq' => parseGo rest (idx + 1) seq' seq_or stack ParseState.Char
      | .error e => .error e
    | '(' =>
      parseGo rest (idx + 1) [] [] ((seq, seq_or) :: stack) ParseState.Char
    | ')' =>
      match stack with
      | [] => .error (ParseError.InvalidRightParen idx)
      | (prev, prev_or) :: stack' =>
        let seq_or' := if seq.isEmpty then seq_or else seq_or ++ [Ast.Seq seq]
        let prev' := match fold_or seq_or' with
          | some ast => prev ++ [ast]
          | none => prev
        parseGo rest (idx + 1) prev' prev_or stack' ParseState.Char
    | '|' =>
      if seq.isEmpty then .error (ParseError.NoPrev idx)
      else parseGo rest (idx + 1) [] (seq_or ++ [Ast.Seq seq]) stack ParseState.Char
    | '\\' =>
      parseGo rest (idx + 1) seq seq_or stack ParseState.Escape
    | '.' =>
      parseGo rest (idx + 1) (seq ++ [Ast.Any]) seq_or stack ParseState.Char
    | _ =>
      parseGo rest (idx + 1) (seq ++ [Ast.Char c]) seq_or stack ParseState.Char

/-- `parser.rs` `parse`. -/
def parse (expr : String) : Except ParseError Ast :=
  parseGo expr.toList 0 [] [] [] ParseState.Char

/-- `engine.rs` `Instruction` as consumed by `evaluator.rs` (which also
handles the `Any`, `Start` and `End` instruction kinds of the spec's
instruction set). -/
inductive Instruction where
  | Char : Char → Instruction
  | Any : Instruction
  | Start : Instruction
  | End : Instruction
  | Match : Instruction
  | Jump : Nat → Instruction
  | Split : Nat → Nat → Instruction

/-- `codegen.rs` `CodeGenError`. -/
inductive CodeGenError where
  | PCOverFlow : CodeGenError
  | FailStar : CodeGenError
  | FailOr : CodeGenError
  | FailQuestion : CodeGenError

/-- `codegen.rs` `Generator`: the running program counter and the growing
instruction sequence. -/
structure Generator where
  pc : Nat
  insts : List Instruction

/-- `codegen.rs` `Generator::inc_pc`. -/
def inc_pc (g : Generator) : Except CodeGenError Generator :=
  match safe_add g.pc 1 with
  | some pc' => .ok { g with pc := pc' }
  | none => .error CodeGenError.PCOverFlow

/-- `codegen.rs` `Generator::gen_char`: push the `Char` instruction, then
increment the program counter. -/
def gen_char (c : Char) (g : Generator) : Except CodeGenError Generator :=
  inc_pc { g with insts := g.insts ++ [Instruction.Char c] }

/-- Modelled from the spec: the code generator's lowering of the `Any` AST
node is not present in src (the `gen_expr` match in `codegen.rs` has no arm
for it, while the parser produces `Any` for `.`).  Per the spec's
instruction set, `Any` "consume[s] one input element unconditionally", so
it lowers like `Char` to the single instruction `Any`. -/
def gen_any (g : Generator) : Except CodeGenError Generator :=
  inc_pc { g with insts := g.insts ++ [Instruction.Any] }

mutual

/-- `codegen.rs` `Generator::gen_expr`, with the bodies of the recursive
one-node helpers `gen_plus`, `gen_star`, `gen_question` and `gen_or`
written inline in their arms (so that the mutual recursion is structural);
`gen_star` below names the `Star` arm again for direct reference. -/
def gen_expr : Ast → Generator → Except CodeGenError Generator
  | Ast.Char c, g => gen_char c g
  | Ast.Plus ast, g =>
    -- `codegen.rs` `Generator::gen_plus`: lower the child, then emit
    -- `Split(entry, here)`.
    let start_addr := g.pc
    match gen_expr ast g with
    | .error e => .error e
    | .ok g1 =>
      match inc_pc g1 with
      | .error e => .error e
      | .ok g2 => .ok { g2 with insts := g2.insts ++ [Instruction.Split start_addr g2.pc] }
  | Ast.Star ast, g =>
    -- `codegen.rs` `Generator::gen_star`: emit `Split(next, 0)`, lower the
    -- child, emit `Jump(entry)`, then patch the split's second target.
    let split_addr := g.pc
    match inc_pc g with
    | .error e => .error e
    | .ok g1 =>
      match gen_expr ast { g1 with insts := g1.insts ++ [Instruction.Split g1.pc 0] } with
      | .error e => .error e
      | .ok g2 =>
        match inc_pc { g2 with insts := g2.insts ++ [Instruction.Jump split_addr] } with
        | .error e => .error e
        | .ok g3 =>
          match g3.insts.get? split_addr with
          | some (Instruction.Split l1 _) =>
            .ok { g3 with insts := g3.insts.set split_addr (Instruction.Split l1 g3.pc) }
          | _ => .error CodeGenError.FailStar
  | Ast.Question ast, g =>
    -- `codegen.rs` `Generator::gen_question`: emit `Split(next, 0)`, lower
    -- the child, then patch the split's second target.
    let split_addr := g.pc
    match inc_pc g with
    | .error e => .error e
    | .ok g1 =>
      match gen_expr ast { g1 with insts := g1.insts ++ [Instruction.Split g1.pc 0] } with
      | .error e => .error e
      | .ok g2 =>
        match g2.insts.get? split_addr with
        | some (Instruction.Split l1 _) =>
          .ok { g2 with insts := g2.insts.set split_addr (Instruction.Split l1 g2.pc) }
        | _ => .error CodeGenError.FailQuestion
  | Ast.Or e1 e2, g =>
    -- `codegen.rs` `Generator::gen_or`: emit `Split(next, 0)`, lower the
    -- left alternative, emit `Jump(0)`, patch the split, lower the right
    -- alternative, patch the jump.
    let split_addr := g.pc
    match inc_pc g with
    | .error e => .error e
    | .ok g1 =>
      match gen_expr e1 { g1 with insts := g1.insts ++ [Instruction.Split g1.pc 0] } with
      | .error e => .error e
      | .ok g2 =>
        let jmp_addr := g2.pc
        match inc_pc { g2 with insts := g2.insts ++ [Instruction.Jump 0] } with
        | .error e => .error e
        | .ok g3 =>
          match g3.insts.get? split_addr with
          | some (Instruction.Split l1 _) =>
            let g4 := { g3 with insts := g3.insts.set split_addr (Instruction.Split l1 g3.pc) }
            match gen_expr e2 g4 with
            | .error e => .error e
            | .ok g5 =>
              match g5.insts.get? jmp_addr with
              | some (Instruction.Jump _) =>
                .ok { g5 with insts := g5.insts.set jmp_addr (Instruction.Jump g5.pc) }
              | _ => .error CodeGenError.FailOr
          | _ => .error CodeGenError.FailOr
  | Ast.Seq s, g => gen_seq s g
  | Ast.Any, g => gen_any g

/-- `codegen.rs` `Generator::gen_seq`. -/
def gen_seq : List Ast → Generator → Except CodeGenError Generator
  | [], g => .ok g
  | e :: es, g =>
    match gen_expr e g with
    | .ok g' => gen_seq es g'
    | .error err => .error err

end

/-- `codegen.rs` `Generator::gen_star`, as the `Star` arm of `gen_expr`. -/
def gen_star (ast : Ast) (g : Generator) : Except CodeGenError Generator :=
  gen_expr (Ast.Star ast) g

/-- `codegen.rs` `Generator::gen_code`: lower the root, then append
`Match`. -/
def gen_code (ast : Ast) (g : Generator) : Except CodeGenError Generator :=
  match gen_expr ast g with
  | .error e => .error e
  | .ok g1 =>
    match inc_pc g1 with
    | .error e => .error e
    | .ok g2 => .ok { g2 with insts := g2.insts ++ [Instruction.Match] }

/-- `codegen.rs` `get_code`: run `gen_code` from the default generator. -/
def get_code (ast : Ast) : Except CodeGenError (List Instruction) :=
  match gen_code ast { pc := 0, insts := [] } with
  | .ok g => .ok g.insts
  | .error e => .error e

/-- `evaluator.rs` `EvalError`. -/
inductive EvalError where
  | PCOverFlow : EvalError
  | SPOverFlow : EvalError
  | InvalidPC : EvalError
  | InvalidContext : EvalError

/-- The round-robin block at the bottom of the `eval_width` loop: if the
queue is non-empty, push the active `(pc, sp)` onto its back and pop the
front into the active state; otherwise keep the active state. -/
def widthRR (pc sp : Nat) (queue : List (Nat × Nat)) : Nat × Nat × List (Nat × Nat) :=
  match queue with
  | [] => (pc, sp, [])
  | t :: ts => (t.1, t.2, ts ++ [(pc, sp)])

/-- `evaluator.rs` `eval_depth`, with an explicit fuel for the loop and
recursion: `none` means the computation did not finish within `fuel` steps.
-/
def eval_depth (insts : List Instruction) (line : List Char) :
    Nat → Nat → Nat → Option (Except EvalError Bool)
  | 0, _, _ => none
  | fuel + 1, pc, sp =>
    match insts.get? pc with
    | none => some (.error EvalError.InvalidPC)
    | some (Instruction.Char c) =>
      match line.get? sp with
      | none => some (.ok false)
      | some sp_c =>
        if c = sp_c then
          match safe_add pc 1 with
          | none => some (.error EvalError.PCOverFlow)
          | some pc' =>
            match safe_add sp 1 with
            | none => some (.error EvalError.SPOverFlow)
            | some sp' => eval_depth insts line fuel pc' sp'
        else
          some (.ok false)
    | some Instruction.Any =>
      match line.get? sp with
      | none => some (.ok false)
      | some _ =>
        match safe_add pc 1 with
        | none => some (.error EvalError.PCOverFlow)
        | some pc' =>
          match safe_add sp 1 with
          | none => some (.error EvalError.SPOverFlow)
          | some sp' => eval_depth insts line fuel pc' sp'
    | some Instruction.Start =>
      if sp ≠ 0 then some (.ok false)
      else
        match safe_add pc 1 with
        | none => some (.error EvalError.PCOverFlow)
        | some pc' => eval_depth insts line fuel pc' sp
    | some Instruction.End =>
      if sp ≠ line.length then some (.ok false)
      else
        match safe_add pc 1 with
        | none => some (.error EvalError.PCOverFlow)
        | some pc' => eval_depth insts line fuel pc' sp
    | some Instruction.Match => some (.ok true)
    | some (Instruction.Jump addr) => eval_depth insts line fuel addr sp
    | some (Instruction.Split addr1 addr2) =>
      match eval_depth insts line fuel addr1 sp with
      | none => none
      | some (.error e) => some (.error e)
      | some (.ok true) => some (.ok true)
      | some (.ok false) =>
        match eval_depth insts line fuel addr2 sp with
        | none => none
        | some (.error e) => some (.error e)
        | some (.ok b) => some (.ok b)

/-- The loop of `evaluator.rs` `eval_width`, with the active `(pc, sp)` and
the FIFO thread queue passed explicitly and an explicit fuel counting loop
iterations.  Every arm that neither returns nor is `Split` falls through to
the round-robin block `widthRR`, exactly as in the source. -/
def eval_width_go (insts : List Instruction) (line : List Char) :
    Nat → Nat → Nat → List (Nat × Nat) → Option (Except EvalError Bool)
  | 0, _, _, _ => none
  | fuel + 1, pc, sp, queue =>
    match insts.get? pc with
    | none => some (.error EvalError.InvalidPC)
    | some (Instruction.Char c) =>
      match line.get? sp with
      | some sp_c =>
        if sp_c = c then
          match safe_add pc 1 with
          | none => some (.error EvalError.PCOverFlow)
          | some pc' =>
            match safe_add sp 1 with
            | none => some (.error EvalError.SPOverFlow)
            | some sp' =>
              let s := widthRR pc' sp' queue
              eval_width_go insts line fuel s.1 s.2.1 s.2.2
        else
          match queue with
          | [] => some (.ok false)
          | t :: ts =>
            let s := widthRR t.1 t.2 ts
            eval_width_go insts line fuel s.1 s.2.1 s.2.2
      | none =>
        match queue with
        | [] => some (.ok false)
        | _ :: _ =>
          let s := widthRR pc sp queue
          eval_width_go insts line fuel s.1 s.2.1 s.2.2
    | some Instruction.Any =>
      match line.get? sp with
      | none => some (.ok false)
      | some _ =>
        match safe_add pc 1 with
        | none => some (.error EvalError.PCOverFlow)
        | some pc' =>
          match safe_add sp 1 with
          | none => some (.error EvalError.SPOverFlow)
          | some sp' =>
            let s := widthRR pc' sp' queue
            eval_width_go insts line fuel s.1 s.2.1 s.2.2
    | some Instruction.Start =>
      if sp = 0 then
        match safe_add pc 1 with
        | none => some (.error EvalError.PCOverFlow)
        | some pc' =>
          let s := widthRR pc' sp queue
          eval_width_go insts line fuel s.1 s.2.1 s.2.2
      else
        match queue with
        | [] => some (.ok false)
        | t :: ts =>
          let s := widthRR t.1 t.2 ts
          eval_width_go insts line fuel s.1 s.2.1 s.2.2
    | some Instruction.End =>
      if sp = line.length then
        match safe_add pc 1 with
        | none => some (.error EvalError.PCOverFlow)
        | some pc' =>
          let s := widthRR pc' sp queue
          eval_width_go insts line fuel s.1 s.2.1 s.2.2
      else
        match queue with
        | [] => some (.ok false)
        | t :: ts =>
          let s := widthRR t.1 t.2 ts
          eval_width_go insts line fuel s.1 s.2.1 s.2.2
    | some Instruction.Match => some (.ok true)
    | some (Instruction.Jump addr) =>
      let s := widthRR addr sp queue
      eval_width_go insts line fuel s.1 s.2.1 s.2.2
    | some (Instruction.Split addr1 addr2) =>
      eval_width_go insts line fuel addr1 sp (queue ++ [(addr2, sp)])

/-- `evaluator.rs` `eval_width`: run the loop from `(pc, sp) = (0, 0)` with
an empty queue. -/
def eval_width (insts : List Instruction) (line : List Char) (fuel : Nat) :
    Option (Except EvalError Bool) :=
  eval_width_go insts line fuel 0 0 []

/-- `evaluator.rs` `eval`: select the evaluation mode. -/
def eval (insts : List Instruction) (line : List Char) (is_depth : Bool) (fuel : Nat) :
    Option (Except EvalError Bool) :=
  if is_depth then eval_depth insts line fuel 0 0
  else eval_width insts line fuel

/-- The single erased error type of `engine.rs` `do_matching` (`DynError`),
modelled as the sum of the three stage error types. -/
inductive MatchError where
  | ParseErr : ParseError → MatchError
  | CodeGenErr : CodeGenError → MatchError
  | EvalErr : EvalError → MatchError

/-- `engine.rs` `do_matching`: parse, compile, evaluate, surfacing the
first error; fuel is threaded to the evaluator. -/
def do_matching (expr line : String) (is_depth : Bool) (fuel : Nat) :
    Option (Except MatchError Bool) :=
  match parse expr with
  | .error e => some (.error (MatchError.ParseErr e))
  | .ok ast =>
    match get_code ast with
    | .error e => some (.error (MatchError.CodeGenErr e))
    | .ok code =>
      match eval code line.toList is_depth fuel with
      | none => none
      | some (.error e) => some (.error (MatchError.EvalErr e))
      | some (.ok b) => some (.ok b)

/-- Right-associated `Or`-nesting of a nonempty list of alternatives,
written from the spec's words: `[a1, ..., an]` becomes
`Or(a1, Or(a2, ... Or(a(n-1), an)))`. -/
def nestOr : Ast → List Ast → Ast
  | a, [] => a
  | a, b :: r => Ast.Or a (nestOr b r)

/-- Alternation folding as described by the spec, for comparison with the
source's `fold_or`: a single element is returned as-is, two or more are
combined right-associatively into nested `Or`, the empty list produces no
AST. -/
def fold_or_spec : List Ast → Option Ast
  | [] => none
  | a :: rest => some (nestOr a rest)

/-- The targets of an instruction are bounded by `n` (used as a running
invariant of the code generator). -/
def inst_targets_le (i : Instruction) (n : Nat) : Prop :=
  match i with
  | Instruction.Jump a => a ≤ n
  | Instruction.Split a b => a ≤ n ∧ b ≤ n
  | _ => True

/-- The targets of an instruction are valid in-range addresses of a program
of length `n`. -/
def inst_targets_lt (i : Instruction) (n : Nat) : Prop :=
  match i with
  | Instruction.Jump a => a < n
  | Instruction.Split a b => a < n ∧ b < n
  | _ => True

instance (i : Instruction) (n : Nat) : Decidable (inst_targets_lt i n) := by
  unfold inst_targets_lt
  cases i <;> infer_instance

/-- The generator-state invariant produced by a successful `gen_expr` run
from state `g`: the program counter equals the instruction count, the run
only appended instructions, and every appended target is bounded by the
final program counter. -/
def GenOk (g g' : Generator) : Prop :=
  g'.pc = g'.insts.length ∧
    ∃ new, g'.insts = g.insts ++ new ∧ ∀ i ∈ new, inst_targets_le i g'.pc

/-- The bytecode compiled for the pattern `a(b|c)`. -/
def prog_a_bc : List Instruction :=
  [Instruction.Char 'a', Instruction.Split 2 4, Instruction.Char 'b',
    Instruction.Jump 5, Instruction.Char 'c', Instruction.Match]

end RegexMachine

namespace RegexMachine

lemma get?_append_len (l : List α) (a : α) (r : List α) :
    (l ++ a :: r).get? l.length = some a := by
  induction l with
  | nil => rfl
  | cons x xs ih => exact ih

lemma set_append_len (l : List α) (a b : α) (r : List α) :
    (l ++ a :: r).set l.length b = l ++ b :: r := by
  induction l with
  | nil => rfl
  | cons x xs ih => exact congrArg (List.cons x) ih

lemma inst_targets_le_mono {i : Instruction} {m n : Nat}
    (h : inst_targets_le i m) (hmn : m ≤ n) : inst_targets_le i n := by
  cases i <;> simp [inst_targets_le] at h ⊢ <;> omega

lemma nestOr_foldr (l : List Ast) : ∀ (a x : Ast), (a :: l).getLast? = some x →
    ((a :: l).dropLast).foldr (fun s acc => Ast.Or s acc) x = nestOr a l := by
  induction l with
  | nil =>
    intro a x h
    simp [List.getLast?] at h
    simp [h, nestOr]
  | cons b r ih =>
    intro a x h
    rw [List.getLast?_cons_cons] at h
    have hd : (a :: b :: r).dropLast = a :: (b :: r).dropLast := by
      simp [List.dropLast]
    rw [hd, List.foldr_cons, ih b x h, nestOr]

lemma fold_or_cons (a : Ast) (l : List Ast) : fold_or (a :: l) = some (nestOr a l) := by
  cases l with
  | nil => rfl
  | cons b r =>
    have hlen : 1 < (a :: b :: r).length := by simp
    obtain ⟨x, hx⟩ : ∃ x, (a :: b :: r).getLast? = some x := by
      rw [List.getLast?_cons_cons]
      cases h : (b :: r).getLast? with
      | some y => exact ⟨y, rfl⟩
      | none => exact absurd (List.getLast?_eq_none_iff.mp h) (by simp)
    rw [fold_or, if_pos hlen, hx]
    dsimp only
    rw [List.foldl_reverse]
    exact congrArg some (nestOr_foldr (b :: r) a x hx)

/-- C9: alternation folding of `[a1, ..., an]` with `n ≥ 2` produces the
right-associated nesting `Or(a1, Or(a2, ... Or(a(n-1), an)))`, a
single-element list returns its element unchanged, and the empty list
produces no AST, which leads the parse of an empty pattern to the `Empty`
error: `fold_or` agrees everywhere with the folding the spec describes, and
`parse ""` fails with `Empty`. -/
theorem claim_C9_fold_or :
    (∀ l : List Ast, fold_or l = fold_or_spec l) ∧
      parse "" = .error ParseError.Empty := by
  refine ⟨fun l => ?_, rfl⟩
  cases l with
  | nil => rfl
  | cons a rest => rw [fold_or_cons, fold_or_spec]

/-- C8: a quantifier character `+`, `*` or `?` read in plain-character mode
at scalar index `idx` while the concatenation buffer `seq` is empty makes
the parse fail with `NoPrev idx`, whatever the rest of the input and the
rest of the parser state are; in particular `parse "+b"`, `parse "*b"` and
`parse "?b"` fail with `NoPrev 0`. -/
theorem claim_C8_noprev :
    (∀ (rest : List Char) (idx : Nat) (seq_or : List Ast)
        (stack : List (List Ast × List Ast)),
      parseGo ('+' :: rest) idx [] seq_or stack ParseState.Char =
          .error (ParseError.NoPrev idx) ∧
        parseGo ('*' :: rest) idx [] seq_or stack ParseState.Char =
          .error (ParseError.NoPrev idx) ∧
        parseGo ('?' :: rest) idx [] seq_or stack ParseState.Char =
          .error (ParseError.NoPrev idx)) ∧
      parse "+b" = .error (ParseError.NoPrev 0) ∧
        parse "*b" = .error (ParseError.NoPrev 0) ∧
        parse "?b" = .error (ParseError.NoPrev 0) :=
  ⟨fun _ _ _ _ => ⟨rfl, rfl, rfl⟩, rfl, rfl, rfl⟩

/-- C4 counterexample: the claim says `match("abc?", "acd", true)` returns
`true`; on the code (and its own test `test_do_matching`) it returns
`Ok(false)`: in `abc?` the `?` quantifies `c`, and `"acd"` lacks the
mandatory `b`. -/
theorem claim_C4_counterexample :
    do_matching "abc?" "acd" true 50 = some (.ok false) := rfl

/-- C4 amended: `match("abc?", "acd", true)` returns `false` (the `?`
applies to `c`, so the mandatory `b` is missing from `"acd"`), and
`match("abc?", "abcd", true)` returns `true`. -/
theorem claim_C4_amended :
    do_matching "abc?" "acd" true 50 = some (.ok false) ∧
      do_matching "abc?" "abcd" true 50 = some (.ok true) := ⟨rfl, rfl⟩

/-- C5: evaluation of the code at the claim's input.  The parser of src has
no arm for `^` (its default arm turns it into the literal `Char '^'`), so
`match("^abc(^def|123)", "abc123", true)` returns `Ok(false)` — the first
instruction `Char '^'` fails on `'a'` — although the claim (and the repo's
own `test_start`) says `true`; against `"abcdef"` it returns `Ok(false)`
for the same reason.  The third conjunct exhibits the root cause: `^`
parses as a literal character. -/
theorem claim_C5_anchor_literal :
    do_matching "^abc(^def|123)" "abc123" true 100 = some (.ok false) ∧
      do_matching "^abc(^def|123)" "abcdef" true 100 = some (.ok false) ∧
      parse "^a" = .ok (Ast.Seq [Ast.Char '^', Ast.Char 'a']) :=
  ⟨rfl, rfl, rfl⟩

/-- C10: both evaluators return `true` the moment the fetched instruction
is `Match`, with any remaining fuel and without comparing the input cursor
to the input length; consequently a pattern matches a string of which it
matches a prefix: `match("abc", "abcde", ·)` returns `true` in both modes.
-/
theorem claim_C10_match_immediate :
    (∀ (insts : List Instruction) (line : List Char) (pc sp fuel : Nat),
        insts.get? pc = some Instruction.Match →
        eval_depth insts line (fuel + 1) pc sp = some (.ok true)) ∧
      (∀ (insts : List Instruction) (line : List Char) (pc sp fuel : Nat)
          (queue : List (Nat × Nat)),
        insts.get? pc = some Instruction.Match →
        eval_width_go insts line (fuel + 1) pc sp queue = some (.ok true)) ∧
      do_matching "abc" "abcde" true 50 = some (.ok true) ∧
      do_matching "abc" "abcde" false 50 = some (.ok true) := by
  refine ⟨fun insts line pc sp fuel h => ?_, fun insts line pc sp fuel q h => ?_, rfl, rfl⟩
  · simp only [eval_depth, h]
  · simp only [eval_width_go, h]

/-- C10 witness: the depth-first clause of `claim_C10_match_immediate`
applied to the one-instruction program `[Match]`. -/
theorem claim_C10_witness :
    eval_depth [Instruction.Match] [] 1 0 0 = some (.ok true) :=
  claim_C10_match_immediate.1 [Instruction.Match] [] 0 0 0 rfl

/-- C3 counterexample: in the program `[Split(1,2), Any, Match]` on empty
input, the `Any` at address 1 meets exhausted input while the queue holds
the thread `(2, 0)` — the queue is not empty, yet the breadth-first
evaluator fails the whole match (second conjunct), even though continuing
from the queued thread as the claim demands reaches `Match` and succeeds
(third conjunct). -/
theorem claim_C3_counterexample :
    ([Instruction.Split 1 2, Instruction.Any, Instruction.Match].get? 1 =
        some Instruction.Any) ∧
      eval_width_go [Instruction.Split 1 2, Instruction.Any, Instruction.Match]
          [] 9 1 0 [(2, 0)] = some (.ok false) ∧
      eval_width_go [Instruction.Split 1 2, Instruction.Any, Instruction.Match]
          [] 9 2 0 [] = some (.ok true) :=
  ⟨rfl, rfl, rfl⟩

/-- C3 amended: in the breadth-first evaluator, when a `Char` instruction
meets a mismatching character the whole match fails iff the queue is empty,
and otherwise the front queued thread is popped into the active state and
evaluation continues with the round-robin rotation applied to it; when a
`Char` meets exhausted input the match likewise fails only if the queue is
empty, but the failed thread is recycled through the round-robin rotation
rather than discarded; when an `Any` instruction meets exhausted input the
whole match fails immediately, regardless of the queue. -/
theorem claim_C3_amended :
    (∀ (insts : List Instruction) (line : List Char) (pc sp fuel : Nat)
        (queue : List (Nat × Nat)) (c : Char),
      insts.get? pc = some (Instruction.Char c) →
      (∀ d, line.get? sp = some d → d ≠ c →
        (queue = [] →
          eval_width_go insts line (fuel + 1) pc sp queue = some (.ok false)) ∧
        (∀ t ts, queue = t :: ts →
          eval_width_go insts line (fuel + 1) pc sp queue =
            eval_width_go insts line fuel (widthRR t.1 t.2 ts).1
              (widthRR t.1 t.2 ts).2.1 (widthRR t.1 t.2 ts).2.2)) ∧
      (line.get? sp = none →
        (queue = [] →
          eval_width_go insts line (fuel + 1) pc sp queue = some (.ok false)) ∧
        (queue ≠ [] →
          eval_width_go insts line (fuel + 1) pc sp queue =
            eval_width_go insts line fuel (widthRR pc sp queue).1
              (widthRR pc sp queue).2.1 (widthRR pc sp queue).2.2))) ∧
    (∀ (insts : List Instruction) (line : List Char) (pc sp fuel : Nat)
        (queue : List (Nat × Nat)),
      insts.get? pc = some Instruction.Any →
      line.get? sp = none →
      eval_width_go insts line (fuel + 1) pc sp queue = some (.ok false)) := by
  constructor
  · intro insts line pc sp fuel queue c h
    constructor
    · intro d hd hne
      constructor
      · intro hq
        subst hq
        simp only [eval_width_go, h, hd, if_neg (fun hh => hne hh)]
      · intro t ts hq
        subst hq
        simp only [eval_width_go, h, hd, if_neg (fun hh => hne hh)]
    · intro hd
      constructor
      · intro hq
        subst hq
        simp only [eval_width_go, h, hd]
      · intro hq
        cases queue with
        | nil => exact absurd rfl hq
        | cons t ts => simp only [eval_width_go, h, hd]
  · intro insts line pc sp fuel queue h hd
    simp only [eval_width_go, h, hd]

/-- C3 amended witness: the `Char`-mismatch, empty-queue clause of
`claim_C3_amended` at the program `[Char 'a']` on input `"b"`. -/
theorem claim_C3_amended_witness :
    eval_width_go [Instruction.Char 'a'] ['b'] 1 0 0 [] = some (.ok false) :=
  ((claim_C3_amended.1 [Instruction.Char 'a'] ['b'] 0 0 0 [] 'a' rfl).1
    'b' rfl (by decide)).1 rfl

/-- The AST parsed from the pattern `a(b|c)`. -/
lemma parse_a_bc : parse "a(b|c)" =
    .ok (Ast.Seq [Ast.Char 'a',
      Ast.Or (Ast.Seq [Ast.Char 'b']) (Ast.Seq [Ast.Char 'c'])]) := rfl

/-- The code generated for the AST of `a(b|c)` is `prog_a_bc`. -/
lemma code_a_bc : get_code (Ast.Seq [Ast.Char 'a',
    Ast.Or (Ast.Seq [Ast.Char 'b']) (Ast.Seq [Ast.Char 'c'])]) =
    .ok prog_a_bc := rfl

/-- On input `a`, the breadth-first loop cycles forever between the two
exhausted-input threads `(2, 1)` and `(4, 1)` of `prog_a_bc`: each one,
instead of being discarded, is re-enqueued by the round-robin block, so no
fuel suffices. -/
lemma width_loop_pair : ∀ n,
    eval_width_go prog_a_bc ['a'] n 2 1 [(4, 1)] = none ∧
      eval_width_go prog_a_bc ['a'] n 4 1 [(2, 1)] = none := by
  intro n
  induction n with
  | zero => exact ⟨rfl, rfl⟩
  | succ n ih =>
    constructor
    · show eval_width_go prog_a_bc ['a'] n 4 1 [(2, 1)] = none
      exact ih.2
    · show eval_width_go prog_a_bc ['a'] n 2 1 [(4, 1)] = none
      exact ih.1

/-- The breadth-first evaluation of `prog_a_bc` on input `a` reaches the
two-thread cycle after two iterations and therefore never returns. -/
lemma width_a_bc_none : ∀ fuel, eval_width_go prog_a_bc ['a'] fuel 0 0 [] = none := by
  intro fuel
  match fuel with
  | 0 => rfl
  | 1 => rfl
  | n + 2 =>
    show eval_width_go prog_a_bc ['a'] n 2 1 [(4, 1)] = none
    exact (width_loop_pair n).1

/-- `do_matching` returns `none` (models: does not return) whenever the
selected evaluation of the compiled code does. -/
lemma do_matching_eval_none {expr line : String} {ast : Ast}
    {code : List Instruction} {is_depth : Bool} {fuel : Nat}
    (h1 : parse expr = .ok ast) (h2 : get_code ast = .ok code)
    (h3 : eval code line.toList is_depth fuel = none) :
    do_matching expr line is_depth fuel = none := by
  simp only [do_matching, h1, h2, h3]

/-- C1: the two evaluation modes do not return the same boolean for the
pattern `a(b|c)` (accepted by `parse`) on input `a`: the depth-first
evaluator returns `Ok(false)`, while the breadth-first evaluator never
returns at all — its loop cycles forever between the two exhausted-input
threads, so no amount of fuel produces a result. -/
theorem claim_C1_mode_divergence :
    do_matching "a(b|c)" "a" true 50 = some (.ok false) ∧
      ∀ fuel, do_matching "a(b|c)" "a" false fuel = none := by
  refine ⟨rfl, fun fuel => ?_⟩
  exact do_matching_eval_none parse_a_bc code_a_bc (width_a_bc_none fuel)

/-- C2: the matching entry point does not always terminate: the call
`do_matching("a(b|c)", "a", false)` never returns a result — for every
fuel bound the fueled embedding of its breadth-first evaluation is still
running. -/
theorem claim_C2_width_nontermination :
    ∀ fuel, do_matching "a(b|c)" "a" false fuel = none := fun fuel =>
  do_matching_eval_none parse_a_bc code_a_bc (width_a_bc_none fuel)

lemma inc_pc_ok {g g' : Generator} (h : inc_pc g = .ok g') :
    g' = ⟨g.pc + 1, g.insts⟩ := by
  simp only [inc_pc, safe_add] at h
  split at h
  · rename_i pc' heq
    split at heq
    · cases heq
      cases h
      rfl
    · exact Option.noConfusion heq
  · exact Except.noConfusion h

lemma get?_append_at {l r : List α} {a : α} {n : Nat} (h : n = l.length) :
    (l ++ a :: r).get? n = some a := h ▸ get?_append_len l a r

lemma set_append_at {l r : List α} {a b : α} {n : Nat} (h : n = l.length) :
    (l ++ a :: r).set n b = l ++ b :: r := h ▸ set_append_len l a b r

lemma inst_targets_lt_of_le {i : Instruction} {m n : Nat}
    (h : inst_targets_le i m) (hmn : m < n) : inst_targets_lt i n := by
  cases i <;> simp [inst_targets_le, inst_targets_lt] at h ⊢ <;> omega

lemma GenOk_pc_le {g g' : Generator} (hg : g.pc = g.insts.length)
    (h : GenOk g g') : g.pc ≤ g'.pc := by
  obtain ⟨hpc, new, hins, -⟩ := h
  rw [hg, hpc, hins]
  simp

lemma GenOk_trans {g1 g2 g3 : Generator}
    (h12 : GenOk g1 g2) (h23 : GenOk g2 g3) : GenOk g1 g3 := by
  obtain ⟨hpc2, new2, he2, ht2⟩ := h12
  obtain ⟨hpc3, new3, he3, ht3⟩ := h23
  refine ⟨hpc3, new2 ++ new3, by rw [he3, he2, List.append_assoc], ?_⟩
  intro i hi
  rcases List.mem_append.mp hi with h | h
  · refine inst_targets_le_mono (ht2 i h) ?_
    rw [hpc2, hpc3, he3]
    simp
  · exact ht3 i h

mutual

theorem gen_expr_ok (ast : Ast) : ∀ (g g' : Generator), g.pc = g.insts.length →
    gen_expr ast g = .ok g' → GenOk g g' := by
  cases ast with
  | Char c =>
    intro g g' hg h
    simp only [gen_expr, gen_char] at h
    cases inc_pc_ok h
    show GenOk g ⟨g.pc + 1, g.insts ++ [Instruction.Char c]⟩
    refine ⟨?_, [Instruction.Char c], rfl, ?_⟩
    · show g.pc + 1 = (g.insts ++ [Instruction.Char c]).length
      simp only [List.length_append, List.length_cons, List.length_nil]
      omega
    · intro i hi
      simp at hi
      subst hi
      trivial
  | Any =>
    intro g g' hg h
    simp only [gen_expr, gen_any] at h
    cases inc_pc_ok h
    show GenOk g ⟨g.pc + 1, g.insts ++ [Instruction.Any]⟩
    refine ⟨?_, [Instruction.Any], rfl, ?_⟩
    · show g.pc + 1 = (g.insts ++ [Instruction.Any]).length
      simp only [List.length_append, List.length_cons, List.length_nil]
      omega
    · intro i hi
      simp at hi
      subst hi
      trivial
  | Seq s =>
    intro g g' hg h
    simp only [gen_expr] at h
    exact gen_seq_ok s g g' hg h
  | Plus a =>
    intro g g' hg h
    simp only [gen_expr] at h
    split at h
    · exact Except.noConfusion h
    · rename_i g1 heq1
      split at h
      · exact Except.noConfusion h
      · rename_i g2 heq2
        cases h
        cases inc_pc_ok heq2
        obtain ⟨hpc1, body, hins1, ht1⟩ := gen_expr_ok a g g1 hg heq1
        have hlen1 : g1.pc = g.insts.length + body.length := by
          rw [hpc1, hins1]
          simp only [List.length_append]
        show GenOk g ⟨g1.pc + 1, g1.insts ++ [Instruction.Split g.pc (g1.pc + 1)]⟩
        refine ⟨?_, body ++ [Instruction.Split g.pc (g1.pc + 1)],
          by rw [hins1, List.append_assoc], ?_⟩
        · show g1.pc + 1 = (g1.insts ++ [Instruction.Split g.pc (g1.pc + 1)]).length
          simp only [List.length_append, List.length_cons, List.length_nil]
          omega
        · intro i hi
          show inst_targets_le i (g1.pc + 1)
          rcases List.mem_append.mp hi with hmem | hmem
          · exact inst_targets_le_mono (ht1 i hmem) (by omega)
          · simp at hmem
            subst hmem
            exact ⟨by omega, by omega⟩
  | Star a =>
    intro g g' hg h
    simp only [gen_expr] at h
    split at h
    · exact Except.noConfusion h
    · rename_i g1 heq1
      cases inc_pc_ok heq1
      split at h
      · exact Except.noConfusion h
      · rename_i g2 heq2
        have hpre : g.pc + 1 = (g.insts ++ [Instruction.Split (g.pc + 1) 0]).length := by
          simp [hg]
        obtain ⟨hpc2, body, hins2, ht2⟩ :=
          gen_expr_ok a ⟨g.pc + 1, g.insts ++ [Instruction.Split (g.pc + 1) 0]⟩ g2 hpre heq2
        rw [List.append_assoc, List.singleton_append] at hins2
        have hlen2 : g2.pc = g.insts.length + 1 + body.length := by
          rw [hpc2, hins2]
          simp only [List.length_append, List.length_cons]
          omega
        split at h
        · exact Except.noConfusion h
        · rename_i g3 heq3
          cases inc_pc_ok heq3
          split at h
          · rename_i l1 x heq4
            cases h
            have hget : (g2.insts ++ [Instruction.Jump g.pc]).get? g.pc =
                some (Instruction.Split (g.pc + 1) 0) := by
              rw [hins2, List.append_assoc, List.cons_append]
              exact get?_append_at hg
            cases Option.some.inj (hget.symm.trans heq4)
            have hset : (g2.insts ++ [Instruction.Jump g.pc]).set g.pc
                (Instruction.Split (g.pc + 1) (g2.pc + 1)) =
                g.insts ++ Instruction.Split (g.pc + 1) (g2.pc + 1) ::
                  (body ++ [Instruction.Jump g.pc]) := by
              rw [hins2, List.append_assoc, List.cons_append]
              exact set_append_at hg
            show GenOk g ⟨g2.pc + 1, (g2.insts ++ [Instruction.Jump g.pc]).set g.pc
              (Instruction.Split (g.pc + 1) (g2.pc + 1))⟩
            rw [hset]
            refine ⟨?_, Instruction.Split (g.pc + 1) (g2.pc + 1) ::
              (body ++ [Instruction.Jump g.pc]), rfl, ?_⟩
            · show g2.pc + 1 = (g.insts ++ Instruction.Split (g.pc + 1) (g2.pc + 1) ::
                (body ++ [Instruction.Jump g.pc])).length
              simp only [List.length_append, List.length_cons, List.length_nil]
              omega
            · intro i hi
              show inst_targets_le i (g2.pc + 1)
              rcases List.mem_cons.mp hi with hmem | hmem
              · subst hmem
                exact ⟨by omega, by omega⟩
              · rcases List.mem_append.mp hmem with hmem2 | hmem2
                · exact inst_targets_le_mono (ht2 i hmem2) (by omega)
                · simp at hmem2
                  subst hmem2
                  show g.pc ≤ g2.pc + 1
                  omega
          · exact Except.noConfusion h
  | Question a =>
    intro g g' hg h
    simp only [gen_expr] at h
    split at h
    · exact Except.noConfusion h
    · rename_i g1 heq1
      cases inc_pc_ok heq1
      split at h
      · exact Except.noConfusion h
      · rename_i g2 heq2
        have hpre : g.pc + 1 = (g.insts ++ [Instruction.Split (g.pc + 1) 0]).length := by
          simp [hg]
        obtain ⟨hpc2, body, hins2, ht2⟩ :=
          gen_expr_ok a ⟨g.pc + 1, g.insts ++ [Instruction.Split (g.pc + 1) 0]⟩ g2 hpre heq2
        rw [List.append_assoc, List.singleton_append] at hins2
        have hlen2 : g2.pc = g.insts.length + 1 + body.length := by
          rw [hpc2, hins2]
          simp only [List.length_append, List.length_cons]
          omega
        split at h
        · rename_i l1 x heq4
          cases h
          have hget : g2.insts.get? g.pc = some (Instruction.Split (g.pc + 1) 0) := by
            rw [hins2]
            exact get?_append_at hg
          cases Option.some.inj (hget.symm.trans heq4)
          have hset : g2.insts.set g.pc (Instruction.Split (g.pc + 1) g2.pc) =
              g.insts ++ Instruction.Split (g.pc + 1) g2.pc :: body := by
            rw [hins2]
            exact set_append_at hg
          show GenOk g ⟨g2.pc, g2.insts.set g.pc (Instruction.Split (g.pc + 1) g2.pc)⟩
          rw [hset]
          refine ⟨?_, Instruction.Split (g.pc + 1) g2.pc :: body, rfl, ?_⟩
          · show g2.pc = (g.insts ++ Instruction.Split (g.pc + 1) g2.pc :: body).length
            simp only [List.length_append, List.length_cons]
            omega
          · intro i hi
            show inst_targets_le i g2.pc
            rcases List.mem_cons.mp hi with hmem | hmem
            · subst hmem
              exact ⟨by omega, by omega⟩
            · exact ht2 i hmem
        · exact Except.noConfusion h
  | Or e1 e2 =>
    intro g g' hg h
    simp only [gen_expr] at h
    split at h
    · exact Except.noConfusion h
    · rename_i g1 heq1
      cases inc_pc_ok heq1
      split at h
      · exact Except.noConfusion h
      · rename_i g2 heq2
        have hpre : g.pc + 1 = (g.insts ++ [Instruction.Split (g.pc + 1) 0]).length := by
          simp [hg]
        obtain ⟨hpc2, body1, hins2, ht2⟩ :=
          gen_expr_ok e1 ⟨g.pc + 1, g.insts ++ [Instruction.Split (g.pc + 1) 0]⟩ g2 hpre heq2
        rw [List.append_assoc, List.singleton_append] at hins2
        have hlen2 : g2.pc = g.insts.length + 1 + body1.length := by
          rw [hpc2, hins2]
          simp only [List.length_append, List.length_cons]
          omega
        split at h
        · exact Except.noConfusion h
        · rename_i g3 heq3
          cases inc_pc_ok heq3
          split at h
          · rename_i l1 x heq4
            have hget : (g2.insts ++ [Instruction.Jump 0]).get? g.pc =
                some (Instruction.Split (g.pc + 1) 0) := by
              rw [hins2, List.append_assoc, List.cons_append]
              exact get?_append_at hg
            cases Option.some.inj (hget.symm.trans heq4)
            have hset : (g2.insts ++ [Instruction.Jump 0]).set g.pc
                (Instruction.Split (g.pc + 1) (g2.pc + 1)) =
                g.insts ++ Instruction.Split (g.pc + 1) (g2.pc + 1) ::
                  (body1 ++ [Instruction.Jump 0]) := by
              rw [hins2, List.append_assoc, List.cons_append]
              exact set_append_at hg
            rw [hset] at h
            split at h
            · exact Except.noConfusion h
            · rename_i g5 heq5
              have hpre5 : g2.pc + 1 =
                  (g.insts ++ Instruction.Split (g.pc + 1) (g2.pc + 1) ::
                    (body1 ++ [Instruction.Jump 0])).length := by
                simp only [List.length_append, List.length_cons, List.length_nil]
                omega
              obtain ⟨hpc5, body2, hins5, ht5⟩ :=
                gen_expr_ok e2 ⟨g2.pc + 1, g.insts ++ Instruction.Split (g.pc + 1) (g2.pc + 1) ::
                  (body1 ++ [Instruction.Jump 0])⟩ g5 hpre5 heq5
              have hlen5 : g5.pc = g.insts.length + 1 + body1.length + 1 + body2.length := by
                rw [hpc5, hins5]
                simp only [List.length_append, List.length_cons, List.length_nil]
                omega
              have hjmp : g2.pc = (g.insts ++
                  Instruction.Split (g.pc + 1) (g2.pc + 1) :: body1).length := by
                simp only [List.length_append, List.length_cons]
                omega
              have hre5 : g5.insts = (g.insts ++
                  Instruction.Split (g.pc + 1) (g2.pc + 1) :: body1) ++
                  Instruction.Jump 0 :: body2 := by
                rw [hins5]
                simp
              split at h
              · rename_i l3 heq6
                cases h
                have hget6 : g5.insts.get? g2.pc = some (Instruction.Jump 0) := by
                  rw [hre5]
                  exact get?_append_at hjmp
                cases Option.some.inj (hget6.symm.trans heq6)
                have hset6 : g5.insts.set g2.pc (Instruction.Jump g5.pc) =
                    (g.insts ++ Instruction.Split (g.pc + 1) (g2.pc + 1) :: body1) ++
                      Instruction.Jump g5.pc :: body2 := by
                  rw [hre5]
                  exact set_append_at hjmp
                show GenOk g ⟨g5.pc, g5.insts.set g2.pc (Instruction.Jump g5.pc)⟩
                rw [hset6]
                rw [show (g.insts ++ Instruction.Split (g.pc + 1) (g2.pc + 1) :: body1) ++
                    Instruction.Jump g5.pc :: body2 =
                    g.insts ++ Instruction.Split (g.pc + 1) (g2.pc + 1) ::
                      (body1 ++ Instruction.Jump g5.pc :: body2) from by simp]
                refine ⟨?_, Instruction.Split (g.pc + 1) (g2.pc + 1) ::
                  (body1 ++ Instruction.Jump g5.pc :: body2), rfl, ?_⟩
                · show g5.pc = (g.insts ++ Instruction.Split (g.pc + 1) (g2.pc + 1) ::
                    (body1 ++ Instruction.Jump g5.pc :: body2)).length
                  simp only [List.length_append, List.length_cons]
                  omega
                · intro i hi
                  show inst_targets_le i g5.pc
                  rcases List.mem_cons.mp hi with hmem | hmem
                  · subst hmem
                    exact ⟨by omega, by omega⟩
                  · rcases List.mem_append.mp hmem with hmem2 | hmem2
                    · exact inst_targets_le_mono (ht2 i hmem2) (by omega)
                    · rcases List.mem_cons.mp hmem2 with hmem3 | hmem3
                      · subst hmem3
                        show g5.pc ≤ g5.pc
                        omega
                      · exact ht5 i hmem3
              · exact Except.noConfusion h
          · exact Except.noConfusion h

theorem gen_seq_ok (es : List Ast) : ∀ (g g' : Generator), g.pc = g.insts.length →
    gen_seq es g = .ok g' → GenOk g g' := by
  cases es with
  | nil =>
    intro g g' hg h
    simp only [gen_seq] at h
    cases h
    exact ⟨hg, [], by simp, by simp⟩
  | cons e es =>
    intro g g' hg h
    simp only [gen_seq] at h
    split at h
    · rename_i g1 heq1
      have h1 := gen_expr_ok e g g1 hg heq1
      exact GenOk_trans h1 (gen_seq_ok es g1 g' h1.1 h)
    · exact Except.noConfusion h

end

/-- C6: for every AST for which code generation succeeds, every `Jump`
target and both `Split` targets of the returned instruction sequence are
valid in-range indices into the finished program, and the program's last
instruction is `Match`. -/
theorem claim_C6_codegen_invariant :
    ∀ (ast : Ast) (code : List Instruction), get_code ast = .ok code →
      (∀ i ∈ code, inst_targets_lt i code.length) ∧
        code.getLast? = some Instruction.Match := by
  intro ast code h
  simp only [get_code] at h
  split at h
  · rename_i g heq
    cases h
    simp only [gen_code] at heq
    split at heq
    · exact Except.noConfusion heq
    · rename_i g1 heq1
      split at heq
      · exact Except.noConfusion heq
      · rename_i g2 heq2
        cases heq
        cases inc_pc_ok heq2
        obtain ⟨hpc1, new, hins1, ht1⟩ := gen_expr_ok ast ⟨0, []⟩ g1 rfl heq1
        have hnew : g1.insts = new := by simpa using hins1
        constructor
        · intro i hi
          show inst_targets_lt i (g1.insts ++ [Instruction.Match]).length
          rcases List.mem_append.mp hi with hmem | hmem
          · refine inst_targets_lt_of_le (ht1 i (hnew ▸ hmem)) ?_
            simp only [List.length_append, List.length_cons, List.length_nil]
            omega
          · simp at hmem
            subst hmem
            trivial
        · exact List.getLast?_concat _
  · exact Except.noConfusion h

/-- C6 witness: the invariant applied to the code generated for `a*`. -/
theorem claim_C6_witness :
    (∀ i ∈ [Instruction.Split 1 3, Instruction.Char 'a', Instruction.Jump 0,
        Instruction.Match], inst_targets_lt i 4) ∧
      [Instruction.Split 1 3, Instruction.Char 'a', Instruction.Jump 0,
        Instruction.Match].getLast? = some Instruction.Match :=
  claim_C6_codegen_invariant (Ast.Star (Ast.Char 'a'))
    [Instruction.Split 1 3, Instruction.Char 'a', Instruction.Jump 0,
      Instruction.Match] rfl

/-- C7: lowering `Star(child)` from a consistent generator state with entry
address `e = g.pc` emits `Split(e + 1, x)` at address `e`, then the code
`body` produced by lowering `child`, then `Jump(e)`; the backpatched second
split target `x` is the final program counter `g'.pc = e + 1 + |body| + 1`,
which is the address immediately following the `Jump` (the jump sits at
index `e + 1 + |body|`). -/
theorem claim_C7_gen_star_shape :
    ∀ (child : Ast) (g g' : Generator), g.pc = g.insts.length →
      gen_star child g = .ok g' →
      ∃ body gmid,
        gen_expr child ⟨g.pc + 1, g.insts ++ [Instruction.Split (g.pc + 1) 0]⟩ =
            .ok gmid ∧
          gmid.insts = g.insts ++ Instruction.Split (g.pc + 1) 0 :: body ∧
          g'.insts = g.insts ++ Instruction.Split (g.pc + 1) g'.pc ::
            (body ++ [Instruction.Jump g.pc]) ∧
          g'.pc = g.pc + 1 + body.length + 1 := by
  intro child g g' hg h
  simp only [gen_star, gen_expr] at h
  split at h
  · exact Except.noConfusion h
  · rename_i g1 heq1
    cases inc_pc_ok heq1
    split at h
    · exact Except.noConfusion h
    · rename_i g2 heq2
      have hpre : g.pc + 1 = (g.insts ++ [Instruction.Split (g.pc + 1) 0]).length := by
        simp [hg]
      obtain ⟨hpc2, body, hins2, ht2⟩ :=
        gen_expr_ok child ⟨g.pc + 1, g.insts ++ [Instruction.Split (g.pc + 1) 0]⟩ g2 hpre heq2
      rw [List.append_assoc, List.singleton_append] at hins2
      have hlen2 : g2.pc = g.insts.length + 1 + body.length := by
        rw [hpc2, hins2]
        simp only [List.length_append, List.length_cons]
        omega
      split at h
      · exact Except.noConfusion h
      · rename_i g3 heq3
        cases inc_pc_ok heq3
        split at h
        · rename_i l1 x heq4
          cases h
          have hget : (g2.insts ++ [Instruction.Jump g.pc]).get? g.pc =
              some (Instruction.Split (g.pc + 1) 0) := by
            rw [hins2, List.append_assoc, List.cons_append]
            exact get?_append_at hg
          cases Option.some.inj (hget.symm.trans heq4)
          have hset : (g2.insts ++ [Instruction.Jump g.pc]).set g.pc
              (Instruction.Split (g.pc + 1) (g2.pc + 1)) =
              g.insts ++ Instruction.Split (g.pc + 1) (g2.pc + 1) ::
                (body ++ [Instruction.Jump g.pc]) := by
            rw [hins2, List.append_assoc, List.cons_append]
            exact set_append_at hg
          refine ⟨body, g2, heq2, hins2, ?_, ?_⟩
          · show (g2.insts ++ [Instruction.Jump g.pc]).set g.pc
              (Instruction.Split (g.pc + 1) (g2.pc + 1)) =
              g.insts ++ Instruction.Split (g.pc + 1) (g2.pc + 1) ::
                (body ++ [Instruction.Jump g.pc])
            exact hset
          · show g2.pc + 1 = g.pc + 1 + body.length + 1
            omega
        · exact Except.noConfusion h

/-- C7 witness: the shape theorem applied to `Star(Char 'a')` lowered from
the initial generator state. -/
theorem claim_C7_witness :
    ∃ (body : List Instruction) (gmid : Generator),
      gen_expr (Ast.Char 'a') ⟨1, [Instruction.Split 1 0]⟩ = .ok gmid ∧
        gmid.insts = Instruction.Split 1 0 :: body ∧
        [Instruction.Split 1 3, Instruction.Char 'a', Instruction.Jump 0] =
          Instruction.Split 1 3 :: (body ++ [Instruction.Jump 0]) ∧
        (3 : Nat) = 0 + 1 + body.length + 1 :=
  claim_C7_gen_star_shape (Ast.Char 'a') ⟨0, []⟩
    ⟨3, [Instruction.Split 1 3, Instruction.Char 'a', Instruction.Jump 0]⟩ rfl rfl

end RegexMachine
